import Mathlib

/-!
Verification of the LMReview single-folder workflow
(`notebooklm_single_folder_flow.py`).

The Python program is shallowly embedded: the filesystem is explicit data
(a directory is an optional list of entries), timer and clipboard state
machines are explicit state-passing functions, and every operation used by
the claims is translated directly from the source.
-/

namespace LMReview

/-- An entry of an input directory: its filename together with whether it is a
regular file (the result of the `os.path.isfile` test in `list_input_files`). -/
structure DirEntry where
  name : String
  isFile : Bool
deriving DecidableEq, Repr

/-- `AppConfig.tags`: the fixed ordered list of recognized tag prefixes. -/
def tags : List String := ["【標準】", "【範本】", "【待審】"]

/-- Python's `s.startswith(pre)`: `pre` is a prefix of the character sequence
of `s`. -/
def strStartsWith (s pre : String) : Bool := pre.data.isPrefixOf s.data

/-- Python's `s.endswith(post)`: `post` is a suffix of the character sequence
of `s`. -/
def strEndsWith (s post : String) : Bool := post.data.isSuffixOf s.data

/-- `is_skip_file(fn)`: `fn.startswith("~$") or fn.startswith(".") or fn.endswith(".tmp")`. -/
def is_skip_file (fn : String) : Bool :=
  strStartsWith fn "~$" || strStartsWith fn "." || strEndsWith fn ".tmp"

/-- The partition test of `list_input_files`:
`any(f.startswith(t) for t in self.cfg.tags)`. -/
def isTagged (f : String) : Bool := tags.any (fun t => strStartsWith f t)

/-- `FileManager.list_input_files`.  The directory argument is `none` when the
input directory does not exist (`not os.path.exists(folder)`), otherwise
`some` of its `os.listdir` entry listing.  Python's `sorted` on strings is
lexicographic on code points, which is exactly `≤` on Lean strings. -/
def list_input_files (dir : Option (List DirEntry)) : List String × List String :=
  match dir with
  | none => ([], [])
  | some entries =>
      let all_files :=
        (entries.filter (fun e => e.isFile && !is_skip_file e.name)).map DirEntry.name
      (List.insertionSort (· ≤ ·) (all_files.filter (fun f => isTagged f)),
       List.insertionSort (· ≤ ·) (all_files.filter (fun f => !isTagged f)))

theorem length_filter_add_length_filter_not {α : Type} (p : α → Bool) (l : List α) :
    (l.filter p).length + (l.filter (fun a => !p a)).length = l.length := by
  induction l with
  | nil => rfl
  | cons a l ih => cases h : p a <;> simp [List.filter_cons, h] <;> omega

/-- C1: for an existing input directory, `list_input_files` returns N−M names
(N regular files, M of them skip-eligible) split into tagged/untagged by the
tag-prefix test, with no name in both lists and both lists sorted ascending. -/
theorem list_input_files_correct (entries : List DirEntry) :
    ((list_input_files (some entries)).1.length + (list_input_files (some entries)).2.length
      = (entries.filter (fun e => e.isFile)).length
        - ((entries.filter (fun e => e.isFile)).filter (fun e => is_skip_file e.name)).length)
    ∧ (∀ f, f ∈ (list_input_files (some entries)).1 ↔
        ((∃ e ∈ entries, e.isFile = true ∧ is_skip_file e.name = false ∧ e.name = f)
          ∧ isTagged f = true))
    ∧ (∀ f, f ∈ (list_input_files (some entries)).2 ↔
        ((∃ e ∈ entries, e.isFile = true ∧ is_skip_file e.name = false ∧ e.name = f)
          ∧ isTagged f = false))
    ∧ (∀ f, ¬(f ∈ (list_input_files (some entries)).1 ∧ f ∈ (list_input_files (some entries)).2))
    ∧ (list_input_files (some entries)).1.Sorted (· ≤ ·)
    ∧ (list_input_files (some entries)).2.Sorted (· ≤ ·) := by
  have hmem1 : ∀ f, f ∈ (list_input_files (some entries)).1 ↔
      ((∃ e ∈ entries, e.isFile = true ∧ is_skip_file e.name = false ∧ e.name = f)
        ∧ isTagged f = true) := by
    intro f
    simp only [list_input_files, List.mem_insertionSort, List.mem_filter, List.mem_map,
      Bool.and_eq_true, Bool.not_eq_true']
    constructor
    · rintro ⟨⟨e, ⟨he, hf, hs⟩, rfl⟩, ht⟩
      exact ⟨⟨e, he, hf, hs, rfl⟩, ht⟩
    · rintro ⟨⟨e, he, hf, hs, rfl⟩, ht⟩
      exact ⟨⟨e, ⟨he, hf, hs⟩, rfl⟩, ht⟩
  have hmem2 : ∀ f, f ∈ (list_input_files (some entries)).2 ↔
      ((∃ e ∈ entries, e.isFile = true ∧ is_skip_file e.name = false ∧ e.name = f)
        ∧ isTagged f = false) := by
    intro f
    simp only [list_input_files, List.mem_insertionSort, List.mem_filter, List.mem_map,
      Bool.and_eq_true, Bool.not_eq_true']
    constructor
    · rintro ⟨⟨e, ⟨he, hf, hs⟩, rfl⟩, ht⟩
      exact ⟨⟨e, he, hf, hs, rfl⟩, ht⟩
    · rintro ⟨⟨e, he, hf, hs, rfl⟩, ht⟩
      exact ⟨⟨e, ⟨he, hf, hs⟩, rfl⟩, ht⟩
  refine ⟨?_, hmem1, hmem2, ?_, ?_, ?_⟩
  · simp only [list_input_files, List.length_insertionSort]
    have hsum := length_filter_add_length_filter_not (fun f => isTagged f)
      ((entries.filter (fun e => e.isFile && !is_skip_file e.name)).map DirEntry.name)
    have hff : entries.filter (fun e => e.isFile && !is_skip_file e.name)
        = (entries.filter (fun e => e.isFile)).filter (fun e => !is_skip_file e.name) := by
      rw [List.filter_filter]
      exact List.filter_congr (fun e _ => Bool.and_comm _ _)
    have hsub := length_filter_add_length_filter_not (fun e => is_skip_file e.name)
      (entries.filter (fun e => e.isFile))
    rw [hff] at hsum ⊢
    rw [List.length_map] at hsum
    omega
  · intro f ⟨h1, h2⟩
    have t1 := (hmem1 f).mp h1
    have t2 := (hmem2 f).mp h2
    rw [t1.2] at t2
    exact absurd t2.2 (by simp)
  · exact List.sorted_insertionSort _ _
  · exact List.sorted_insertionSort _ _

/-- C8: for a nonexistent input directory, `list_input_files` returns two
empty lists rather than raising an error. -/
theorem list_input_files_missing_dir : list_input_files none = ([], []) := rfl

/-! ### Tagger (`FileManager.tag_file`) -/

/-- Outcome of `tag_file`: Python returns `(True, new_filename)` on success and
`(False, message)` on failure. -/
inductive TagOutcome where
  | ok (newName : String)
  | err (msg : String)
deriving DecidableEq, Repr

/-- `FileManager.tag_file(project, delivery, filename, tag)` acting on the
input directory, modelled as the list of filenames present.  Checks follow the
source order: missing source (`檔案不存在`), then destination collision
(`目標檔名已存在`), then `os.rename` replaces the old name with
`f"{tag}{filename}"`.  The stability-wait loop only reads file sizes and
changes no directory state.  The result pairs the Python return value with the
directory contents after the call. -/
def tag_file (dir : List String) (filename tag : String) : TagOutcome × List String :=
  let new_filename := tag ++ filename
  if filename ∈ dir then
    if new_filename ∈ dir then (.err "目標檔名已存在", dir)
    else (.ok new_filename, dir.map (fun f => if f = filename then new_filename else f))
  else (.err "檔案不存在", dir)

/-- C2 counterexample: a directory in which the tag-prefixed destination name
exists but the source file does not.  `tag_file` returns the not-found message
`檔案不存在`, not the conflict message `目標檔名已存在`, so "for every directory
state in which the destination exists, the result is the Conflict message" is
false (the directory is still left unchanged). -/
theorem tag_file_conflict_needs_source :
    ("【待審】" ++ "a.txt") ∈ ["【待審】a.txt"]
    ∧ tag_file ["【待審】a.txt"] "a.txt" "【待審】" = (.err "檔案不存在", ["【待審】a.txt"])
    ∧ tag_file ["【待審】a.txt"] "a.txt" "【待審】" ≠ (.err "目標檔名已存在", ["【待審】a.txt"]) := by
  refine ⟨by decide, by decide, by decide⟩

/-- C2 (amended): if the source file exists and the tag-prefixed destination
name already exists, `tag_file` fails with the conflict message and the
directory is unchanged — the source file is neither renamed, deleted nor
overwritten. -/
theorem tag_file_conflict (dir : List String) (filename tag : String)
    (hsrc : filename ∈ dir) (hdst : (tag ++ filename) ∈ dir) :
    tag_file dir filename tag = (.err "目標檔名已存在", dir) := by
  simp [tag_file, hsrc, hdst]

theorem tag_file_conflict_witness :
    "a.txt" ∈ ["a.txt", "【待審】a.txt"] ∧ ("【待審】" ++ "a.txt") ∈ ["a.txt", "【待審】a.txt"]
    ∧ tag_file ["a.txt", "【待審】a.txt"] "a.txt" "【待審】"
        = (.err "目標檔名已存在", ["a.txt", "【待審】a.txt"]) :=
  ⟨by decide, by decide,
    tag_file_conflict ["a.txt", "【待審】a.txt"] "a.txt" "【待審】" (by decide) (by decide)⟩

/-- C9: `tag_file` never inspects whether the source name already carries a tag
prefix: whenever the source exists and the destination is free, it succeeds
with the name obtained by prepending the new tag to the existing name — so
tagging an already-tagged file yields a doubly-prefixed filename. -/
theorem tag_file_allows_retagging (dir : List String) (filename tag : String)
    (hsrc : filename ∈ dir) (hdst : (tag ++ filename) ∉ dir) :
    tag_file dir filename tag
      = (.ok (tag ++ filename), dir.map (fun f => if f = filename then tag ++ filename else f))
    ∧ (∀ t₀ base, filename = t₀ ++ base → (tag_file dir filename tag).1 = .ok (tag ++ t₀ ++ base)) := by
  constructor
  · simp [tag_file, hsrc, hdst]
  · intro t₀ base hbase
    subst hbase
    simp [tag_file, hsrc, hdst, String.append_assoc]

theorem tag_file_allows_retagging_witness :
    "【標準】doc.txt" ∈ ["【標準】doc.txt"] ∧ ("【待審】" ++ "【標準】doc.txt") ∉ ["【標準】doc.txt"]
    ∧ (tag_file ["【標準】doc.txt"] "【標準】doc.txt" "【待審】").1
        = .ok ("【待審】" ++ "【標準】" ++ "doc.txt") :=
  ⟨by decide, by decide,
    (tag_file_allows_retagging ["【標準】doc.txt"] "【標準】doc.txt" "【待審】"
      (by decide) (by decide)).2 "【標準】" "doc.txt" rfl⟩

/-! ### Word export naming (`sanitize_filename`, `now_ts`, `WordExporter.export`) -/

/-- The character class of the regex in `sanitize_filename`:
`re.sub(r'[\\/:*?"<>|]+', "_", name)`. -/
def isBadChar (c : Char) : Bool :=
  c = '\\' || c = '/' || c = ':' || c = '*' || c = '?' || c = '"' || c = '<' || c = '>' || c = '|'

/-- Kernel of `sanitize_filename`: the regex `[\\/:*?"<>|]+` replaces each
maximal run of characters of the class by a single `_`.  The flag records
whether the previous character belonged to the class (we are inside a run). -/
def sanitizeAux : Bool → List Char → List Char
  | _, [] => []
  | inRun, c :: cs =>
    if isBadChar c then
      if inRun then sanitizeAux true cs else '_' :: sanitizeAux true cs
    else c :: sanitizeAux false cs

/-- `sanitize_filename(name)`: `re.sub(r'[\\/:*?"<>|]+', "_", name)`. -/
def sanitize_filename (name : String) : String := ⟨sanitizeAux false name.data⟩

/-- The claim's reading of sanitization: replace each occurrence of each
character of the class individually by `_`, with no run collapsing.  Stated
from the spec's words, to be compared with `sanitize_filename`. -/
def sanitizeEachChar (name : String) : String :=
  ⟨name.data.map (fun c => if isBadChar c then '_' else c)⟩

/-- A wall-clock sample, the input of `time.strftime`. -/
structure ClockTime where
  year : Nat
  month : Nat
  day : Nat
  hour : Nat
  minute : Nat
  second : Nat
deriving DecidableEq, Repr

/-- The decimal digit character for `n % 10`. -/
def digitChar (n : Nat) : Char := Char.ofNat (48 + n % 10)

/-- A zero-padded two-digit field (`%m`, `%d`, `%H`, `%M`, `%S`). -/
def pad2 (n : Nat) : String := ⟨[digitChar (n / 10), digitChar n]⟩

/-- The zero-padded four-digit year (`%Y`, for calendar years up to 9999). -/
def pad4 (n : Nat) : String :=
  ⟨[digitChar (n / 1000), digitChar (n / 100), digitChar (n / 10), digitChar n]⟩

/-- `now_ts()`: `time.strftime("%Y%m%d_%H%M%S")`, modelled as the zero-padded
calendar fields of the current clock time. -/
def now_ts (t : ClockTime) : String :=
  pad4 t.year ++ pad2 t.month ++ pad2 t.day ++ "_" ++ pad2 t.hour ++ pad2 t.minute ++ pad2 t.second

/-- The shape `YYYYMMDD_HHMMSS`: fifteen characters, all decimal digits except
an underscore in position 8. -/
def tsFormat (s : String) : Bool :=
  match s.data with
  | [y1, y2, y3, y4, mo1, mo2, d1, d2, u, h1, h2, mi1, mi2, s1, s2] =>
      ([y1, y2, y3, y4, mo1, mo2, d1, d2, h1, h2, mi1, mi2, s1, s2].all Char.isDigit) && (u == '_')
  | _ => false

/-- The basename of the path built in `WordExporter.export`:
`f"Review_{safe}_{now_ts()}.docx"` with `safe = sanitize_filename(source_filename)`. -/
def wordExportName (source_filename : String) (t : ClockTime) : String :=
  "Review_" ++ sanitize_filename source_filename ++ "_" ++ now_ts t ++ ".docx"

theorem digitChar_isDigit (n : Nat) : (digitChar n).isDigit = true := by
  unfold digitChar
  have h : n % 10 < 10 := Nat.mod_lt n (by norm_num)
  generalize hd : n % 10 = d at h ⊢
  interval_cases d <;> decide

theorem tsFormat_now_ts (t : ClockTime) : tsFormat (now_ts t) = true := by
  have hdata : (now_ts t).data =
      [digitChar (t.year / 1000), digitChar (t.year / 100), digitChar (t.year / 10),
       digitChar t.year, digitChar (t.month / 10), digitChar t.month,
       digitChar (t.day / 10), digitChar t.day, '_',
       digitChar (t.hour / 10), digitChar t.hour, digitChar (t.minute / 10), digitChar t.minute,
       digitChar (t.second / 10), digitChar t.second] := rfl
  simp only [tsFormat, hdata, List.all_cons, List.all_nil, digitChar_isDigit]
  decide

theorem sanitizeAux_clean (u rest : List Char) (hu : ∀ c ∈ u, isBadChar c = false) :
    sanitizeAux false (u ++ rest) = u ++ sanitizeAux false rest := by
  induction u with
  | nil => rfl
  | cons c u ih =>
    have hc := hu c (by simp)
    simp [sanitizeAux, hc, ih (fun c hc' => hu c (by simp [hc']))]

theorem sanitizeAux_run (r v : List Char) (hr : ∀ c ∈ r, isBadChar c = true) :
    sanitizeAux true (r ++ v) = sanitizeAux true v := by
  induction r with
  | nil => rfl
  | cons c r ih =>
    have hc := hr c (by simp)
    simp [sanitizeAux, hc, ih (fun c hc' => hr c (by simp [hc']))]

theorem sanitizeAux_leave_run (v : List Char)
    (hv : ∀ c, v.head? = some c → isBadChar c = false) :
    sanitizeAux true v = sanitizeAux false v := by
  cases v with
  | nil => rfl
  | cons c v =>
    have hc := hv c rfl
    simp [sanitizeAux, hc]

/-- C5 counterexample: `sanitize_filename` collapses a run of two class
characters into a single `_`, while the claimed per-character replacement
would produce two, so the claimed exported name is wrong for the source
filename made of the four characters a, backslash, slash, b. -/
theorem sanitize_collapses_runs :
    sanitize_filename "a\\/b" = "a_b"
    ∧ sanitizeEachChar "a\\/b" = "a__b"
    ∧ wordExportName "a\\/b" ⟨2026, 10, 12, 3, 4, 5⟩
        ≠ "Review_" ++ sanitizeEachChar "a\\/b" ++ "_" ++ now_ts ⟨2026, 10, 12, 3, 4, 5⟩ ++ ".docx" :=
  ⟨by decide, by decide, by decide⟩

/-- C5 (amended): the exported document's basename is
`Review_<sanitized>_<timestamp>.docx`, where sanitization replaces each
*maximal run* of characters from the class backslash slash colon star
question-mark double-quote less greater pipe by a single underscore (strings
free of the class are unchanged), and the timestamp has the form
`YYYYMMDD_HHMMSS`. -/
theorem word_export_name_correct (src : String) (t : ClockTime)
    (u r v : List Char) (hu : ∀ c ∈ u, isBadChar c = false)
    (hr : r ≠ []) (hrBad : ∀ c ∈ r, isBadChar c = true)
    (hv : ∀ c, v.head? = some c → isBadChar c = false) :
    wordExportName src t = "Review_" ++ sanitize_filename src ++ "_" ++ now_ts t ++ ".docx"
    ∧ tsFormat (now_ts t) = true
    ∧ (∀ s : String, (∀ c ∈ s.data, isBadChar c = false) → sanitize_filename s = s)
    ∧ sanitize_filename ⟨u ++ r ++ v⟩ = ⟨u ++ '_' :: (sanitize_filename ⟨v⟩).data⟩ := by
  refine ⟨rfl, tsFormat_now_ts t, ?_, ?_⟩
  · intro s hs
    have h := sanitizeAux_clean s.data [] hs
    have h0 : sanitizeAux false ([] : List Char) = [] := rfl
    simp only [h0, List.append_nil] at h
    show (⟨sanitizeAux false s.data⟩ : String) = s
    rw [h]
  · show (⟨sanitizeAux false (u ++ r ++ v)⟩ : String) = ⟨u ++ '_' :: sanitizeAux false v⟩
    rw [List.append_assoc, sanitizeAux_clean u (r ++ v) hu]
    cases r with
    | nil => exact absurd rfl hr
    | cons c r =>
      have hc := hrBad c (by simp)
      have hrest : ∀ x ∈ r, isBadChar x = true := fun x hx => hrBad x (by simp [hx])
      simp [sanitizeAux, hc, sanitizeAux_run r v hrest, sanitizeAux_leave_run v hv]

theorem word_export_name_correct_witness :
    (∀ c ∈ ['a'], isBadChar c = false) ∧ (['\\', '/'] ≠ ([] : List Char))
    ∧ (∀ c ∈ ['\\', '/'], isBadChar c = true)
    ∧ (∀ c, (['b'].head? = some c) → isBadChar c = false)
    ∧ wordExportName "x" ⟨2026, 10, 12, 3, 4, 5⟩
        = "Review_" ++ sanitize_filename "x" ++ "_" ++ now_ts ⟨2026, 10, 12, 3, 4, 5⟩ ++ ".docx"
    ∧ tsFormat (now_ts ⟨2026, 10, 12, 3, 4, 5⟩) = true
    ∧ sanitize_filename ⟨['a'] ++ ['\\', '/'] ++ ['b']⟩
        = ⟨['a'] ++ '_' :: (sanitize_filename ⟨['b']⟩).data⟩ := by
  have h := word_export_name_correct "x" ⟨2026, 10, 12, 3, 4, 5⟩ ['a'] ['\\', '/'] ['b']
    (by decide) (by decide) (by decide) (by decide)
  exact ⟨by decide, by decide, by decide, by decide, h.1, h.2.1, h.2.2.2⟩

/-! ### Clipboard monitor (`_poll_clipboard`) -/

/-- The state read and written by `_poll_clipboard`:
`clipboard_auto_var` (armed), `_last_clipboard` (`None` initially), the reply
textbox contents, and the log of export attempts.  Each attempt records the
exported content together with the success of `_export_content`, which the
caller ignores. -/
structure ClipState where
  armed : Bool
  last_clipboard : Option String
  reply : String
  exportAttempts : List (String × Bool)
deriving DecidableEq, Repr

/-- One tick of `_poll_clipboard`.  `clip` is the (already stripped) result of
`_get_clipboard_text()`, the empty string when the clipboard is unreadable or
non-text; `exportOk` is the outcome the environment gives the export attempt.
If the monitor is disarmed the tick returns.  Otherwise, when the content is
non-empty and differs from `_last_clipboard` (a string never equals Python's
`None`), it stores the content in `_last_clipboard`, replaces the reply text,
and attempts a silent export; otherwise nothing changes.  Rescheduling of the
next poll touches none of these fields. -/
def poll_clipboard (s : ClipState) (clip : String) (exportOk : Bool) : ClipState :=
  if s.armed then
    if clip ≠ "" ∧ s.last_clipboard ≠ some clip then
      { s with last_clipboard := some clip, reply := clip,
               exportAttempts := s.exportAttempts ++ [(clip, exportOk)] }
    else s
  else s

/-- A sequence of poll ticks, each with its observed clipboard text and its
export outcome. -/
def poll_run (s : ClipState) (ticks : List (String × Bool)) : ClipState :=
  ticks.foldl (fun st t => poll_clipboard st t.1 t.2) s

/-- C3: while armed, a poll tick triggers an export and updates the last-seen
snapshot iff the clipboard text is non-empty and differs from the last-seen
value; the same non-empty content on two consecutive polls yields at most one
export attempt, and content A followed by distinct content B yields a second
one. -/
theorem poll_clipboard_dedup (s : ClipState) (clip a b : String) (ok o₁ o₂ : Bool)
    (harm : s.armed = true) (ha : a ≠ "") (hb : b ≠ "") (hab : a ≠ b)
    (hfresh : s.last_clipboard ≠ some a) :
    ((clip ≠ "" ∧ s.last_clipboard ≠ some clip) →
        poll_clipboard s clip ok
          = { s with last_clipboard := some clip, reply := clip,
                     exportAttempts := s.exportAttempts ++ [(clip, ok)] })
    ∧ (¬(clip ≠ "" ∧ s.last_clipboard ≠ some clip) → poll_clipboard s clip ok = s)
    ∧ (poll_clipboard (poll_clipboard s a o₁) a o₂).exportAttempts
        = s.exportAttempts ++ [(a, o₁)]
    ∧ (poll_clipboard (poll_clipboard s a o₁) b o₂).exportAttempts
        = s.exportAttempts ++ [(a, o₁), (b, o₂)] := by
  refine ⟨fun hc => by simp [poll_clipboard, harm, hc], fun hc => by simp [poll_clipboard, harm, hc], ?_, ?_⟩
  · have h1 : poll_clipboard s a o₁
        = { s with last_clipboard := some a, reply := a,
                   exportAttempts := s.exportAttempts ++ [(a, o₁)] } := by
      simp [poll_clipboard, harm, ha, hfresh]
    rw [h1]
    simp [poll_clipboard, harm]
  · have h1 : poll_clipboard s a o₁
        = { s with last_clipboard := some a, reply := a,
                   exportAttempts := s.exportAttempts ++ [(a, o₁)] } := by
      simp [poll_clipboard, harm, ha, hfresh]
    rw [h1]
    have hba : some a ≠ some b := by simp [hab]
    simp [poll_clipboard, harm, hb, hba]

theorem poll_clipboard_dedup_witness :
    ((⟨true, none, "", []⟩ : ClipState).armed = true) ∧ ("A" : String) ≠ "" ∧ ("B" : String) ≠ ""
    ∧ ("A" : String) ≠ "B" ∧ (⟨true, none, "", []⟩ : ClipState).last_clipboard ≠ some "A"
    ∧ (poll_clipboard (poll_clipboard ⟨true, none, "", []⟩ "A" false) "A" true).exportAttempts
        = [("A", false)]
    ∧ (poll_clipboard (poll_clipboard ⟨true, none, "", []⟩ "A" false) "B" true).exportAttempts
        = [("A", false), ("B", true)] := by
  have h := poll_clipboard_dedup ⟨true, none, "", []⟩ "X" "A" "B" true false true
    rfl (by decide) (by decide) (by decide) (by decide)
  exact ⟨rfl, by decide, by decide, by decide, by decide, h.2.2.1, h.2.2.2⟩

/-- C10: the last-seen snapshot is updated before the export is attempted, and
the update does not depend on the export's outcome; consequently, after a poll
exports content `c` — even with a failing export — no later poll that still
observes `c` triggers another export attempt. -/
theorem poll_clipboard_no_retry (s : ClipState) (c : String) (ok : Bool)
    (harm : s.armed = true) (hc : c ≠ "") (hfresh : s.last_clipboard ≠ some c) :
    ((poll_clipboard s c ok).last_clipboard = some c
      ∧ (poll_clipboard s c ok).exportAttempts = s.exportAttempts ++ [(c, ok)])
    ∧ (∀ outcomes : List Bool,
        poll_run (poll_clipboard s c ok) (outcomes.map (fun o => (c, o)))
          = poll_clipboard s c ok) := by
  have h1 : poll_clipboard s c ok
      = { s with last_clipboard := some c, reply := c,
                 exportAttempts := s.exportAttempts ++ [(c, ok)] } := by
    simp [poll_clipboard, harm, hc, hfresh]
  refine ⟨by rw [h1]; exact ⟨rfl, rfl⟩, ?_⟩
  intro outcomes
  have hstable : ∀ (st : ClipState), st.last_clipboard = some c →
      ∀ os : List Bool, poll_run st (os.map (fun o => (c, o))) = st := by
    intro st hlast os
    induction os with
    | nil => rfl
    | cons o os ih =>
      have hstep : poll_clipboard st c o = st := by
        simp [poll_clipboard, hlast]
      simpa [poll_run, hstep] using ih
  exact hstable _ (by rw [h1]) outcomes

theorem poll_clipboard_no_retry_witness :
    ((⟨true, none, "", []⟩ : ClipState).armed = true) ∧ ("A" : String) ≠ ""
    ∧ (⟨true, none, "", []⟩ : ClipState).last_clipboard ≠ some "A"
    ∧ (poll_clipboard ⟨true, none, "", []⟩ "A" false).last_clipboard = some "A"
    ∧ poll_run (poll_clipboard ⟨true, none, "", []⟩ "A" false)
        ([false, true, false].map (fun o => ("A", o)))
        = poll_clipboard ⟨true, none, "", []⟩ "A" false := by
  have h := poll_clipboard_no_retry ⟨true, none, "", []⟩ "A" false rfl (by decide) (by decide)
  exact ⟨rfl, by decide, by decide, h.1.1, h.2 [false, true, false]⟩

/-! ### Debounced refresh timer (`schedule_refresh`, `_run_refresh`) -/

/-- The refresh-timer state of the app: the id generator and pending-timer
queue of tkinter's `after` (each pending timer is an id with its deadline),
the stored `_refresh_job` handle, and the number of catalog recomputations
performed by `_run_refresh` via `refresh_all`. -/
structure RefreshState where
  nextId : Nat
  pending : List (Nat × Nat)
  refresh_job : Option Nat
  refreshCount : Nat
deriving DecidableEq, Repr

/-- The state at `__init__`: `self._refresh_job = None` and no pending timer. -/
def initRefresh : RefreshState := ⟨0, [], none, 0⟩

/-- `self.after_cancel(id)`: drop the timer from the queue. -/
def after_cancel (s : RefreshState) (id : Nat) : RefreshState :=
  { s with pending := s.pending.filter (fun p => p.1 != id) }

/-- `self.after(delay, self._run_refresh)` called at current time `t`:
enqueue a fresh timer id with deadline `t + delay` and return the id. -/
def tk_after (s : RefreshState) (t delay : Nat) : Nat × RefreshState :=
  (s.nextId, { s with nextId := s.nextId + 1, pending := s.pending ++ [(s.nextId, t + delay)] })

/-- `schedule_refresh(delay_ms=300)` called at time `t`: first cancel the
stored job if there is one, then store the id of a freshly scheduled
`_run_refresh` timer. -/
def schedule_refresh (s : RefreshState) (t : Nat) (delay : Nat := 300) : RefreshState :=
  let s₁ := match s.refresh_job with
    | some id => after_cancel s id
    | none => s
  let p := tk_after s₁ t delay
  { p.2 with refresh_job := some p.1 }

/-- The timer system polled at time `t`: a pending timer whose deadline has
been reached is dequeued and its callback `_run_refresh` runs
(`self._refresh_job = None`, then `refresh_all()`); otherwise nothing
happens. -/
def fire_due (s : RefreshState) (t : Nat) : RefreshState :=
  match s.pending.find? (fun p => decide (p.2 ≤ t)) with
  | some p =>
      { s with pending := s.pending.filter (fun q => q.1 != p.1),
               refresh_job := none, refreshCount := s.refreshCount + 1 }
  | none => s

/-- An externally visible event: a `schedule_refresh` request at time `t`, or
a poll of the timer queue at time `t`. -/
inductive RefreshEv where
  | sched (t : Nat)
  | tick (t : Nat)
deriving DecidableEq, Repr

def refresh_step (s : RefreshState) : RefreshEv → RefreshState
  | .sched t => schedule_refresh s t 300
  | .tick t => fire_due s t

def refresh_run (s : RefreshState) (evs : List RefreshEv) : RefreshState :=
  evs.foldl refresh_step s

/-- A burst of `schedule_refresh` requests at the given times. -/
def sched_burst (s : RefreshState) (ts : List Nat) : RefreshState :=
  ts.foldl (fun st t => schedule_refresh st t 300) s

/-- Single-slot invariant: the pending timer queue mirrors `_refresh_job`. -/
def RefreshInv (s : RefreshState) : Prop :=
  (s.refresh_job = none ∧ s.pending = [])
  ∨ ∃ id dl, s.refresh_job = some id ∧ s.pending = [(id, dl)]

theorem schedule_refresh_eq (s : RefreshState) (t : Nat) (hInv : RefreshInv s) :
    schedule_refresh s t 300 = ⟨s.nextId + 1, [(s.nextId, t + 300)], some s.nextId, s.refreshCount⟩ := by
  obtain ⟨n, p, j, c⟩ := s
  rcases hInv with ⟨hj, hp⟩ | ⟨id, dl, hj, hp⟩ <;>
    simp only at hj hp <;> subst hj <;> subst hp
  · rfl
  · simp [schedule_refresh, after_cancel, tk_after]

theorem fire_due_early (s : RefreshState) (id dl t : Nat)
    (hp : s.pending = [(id, dl)]) (ht : t < dl) : fire_due s t = s := by
  have hdl : decide (dl ≤ t) = false := by simp [Nat.not_le.mpr ht]
  simp [fire_due, hp, List.find?, hdl]

theorem fire_due_late (s : RefreshState) (id dl t : Nat)
    (hp : s.pending = [(id, dl)]) (ht : dl ≤ t) :
    fire_due s t = { s with pending := [], refresh_job := none,
                            refreshCount := s.refreshCount + 1 } := by
  have hdl : decide (dl ≤ t) = true := by simp [ht]
  simp [fire_due, hp, List.find?, hdl]

theorem refresh_step_inv (s : RefreshState) (e : RefreshEv) (hInv : RefreshInv s) :
    RefreshInv (refresh_step s e) := by
  cases e with
  | sched t =>
    rw [refresh_step, schedule_refresh_eq s t hInv]
    exact Or.inr ⟨s.nextId, t + 300, rfl, rfl⟩
  | tick t =>
    rcases hInv with ⟨hj, hp⟩ | ⟨id, dl, hj, hp⟩
    · simp [refresh_step, fire_due, hp]
      exact Or.inl ⟨hj, hp⟩
    · by_cases ht : dl ≤ t
      · rw [refresh_step, fire_due_late s id dl t hp ht]
        exact Or.inl ⟨rfl, rfl⟩
      · rw [refresh_step, fire_due_early s id dl t hp (Nat.lt_of_not_le ht)]
        exact Or.inr ⟨id, dl, hj, hp⟩

theorem refresh_run_inv (evs : List RefreshEv) : RefreshInv (refresh_run initRefresh evs) := by
  have h : ∀ (s : RefreshState), RefreshInv s → RefreshInv (refresh_run s evs) := by
    induction evs with
    | nil => exact fun s hs => hs
    | cons e evs ih => exact fun s hs => ih _ (refresh_step_inv s e hs)
  exact h initRefresh (Or.inl ⟨rfl, rfl⟩)

theorem sched_burst_cons (s : RefreshState) (t : Nat) (ts : List Nat) :
    sched_burst s (t :: ts) = sched_burst (schedule_refresh s t 300) ts := rfl

theorem sched_burst_result (t : Nat) (ts : List Nat) :
    ∀ (s : RefreshState), RefreshInv s →
      List.Chain' (fun a b => b < a + 300) (t :: ts) →
      (sched_burst s (t :: ts)).refreshCount = s.refreshCount
      ∧ ∃ id, (sched_burst s (t :: ts)).refresh_job = some id
          ∧ (sched_burst s (t :: ts)).pending = [(id, (t :: ts).getLast (by simp) + 300)] := by
  induction ts generalizing t with
  | nil =>
    intro s hInv _
    rw [sched_burst, List.foldl_cons, List.foldl_nil, schedule_refresh_eq s t hInv]
    exact ⟨rfl, s.nextId, rfl, rfl⟩
  | cons t' ts ih =>
    intro s hInv hchain
    have hInv' : RefreshInv (schedule_refresh s t 300) := refresh_step_inv s (.sched t) hInv
    have hchain' : List.Chain' (fun a b => b < a + 300) (t' :: ts) := hchain.tail
    have hrec := ih t' (schedule_refresh s t 300) hInv' hchain'
    rw [sched_burst_cons]
    refine ⟨?_, hrec.2⟩
    rw [hrec.1, schedule_refresh_eq s t hInv]

/-- C4: at most one pending refresh timer ever exists (each `schedule_refresh`
cancels the stored job before storing the new one); a timer-queue poll before
the pending deadline fires nothing; and a burst of requests at times
`t :: ts`, each within 300 ms of its predecessor, performs no catalog
recomputation while it lasts, leaves exactly one timer with deadline
`last + 300`, and a poll at any `t' ≥ last + 300` then fires exactly one
recomputation (trailing-edge debounce). -/
theorem schedule_refresh_debounce :
    (∀ evs, (refresh_run initRefresh evs).pending.length ≤ 1)
    ∧ (∀ (s : RefreshState) (id dl t : Nat), s.pending = [(id, dl)] → t < dl → fire_due s t = s)
    ∧ (∀ (s : RefreshState) (t : Nat) (ts : List Nat), RefreshInv s →
        List.Chain' (fun a b => b < a + 300) (t :: ts) →
        (sched_burst s (t :: ts)).refreshCount = s.refreshCount
        ∧ ∃ id, (sched_burst s (t :: ts)).refresh_job = some id
            ∧ (sched_burst s (t :: ts)).pending = [(id, (t :: ts).getLast (by simp) + 300)]
            ∧ ∀ t', (t :: ts).getLast (by simp) + 300 ≤ t' →
                (fire_due (sched_burst s (t :: ts)) t').refreshCount = s.refreshCount + 1
                ∧ (fire_due (sched_burst s (t :: ts)) t').pending = []) := by
  refine ⟨?_, fun s id dl t hp ht => fire_due_early s id dl t hp ht, ?_⟩
  · intro evs
    rcases refresh_run_inv evs with ⟨_, hp⟩ | ⟨id, dl, _, hp⟩ <;> simp [hp]
  · intro s t ts hInv hchain
    obtain ⟨hcount, id, hjob, hpend⟩ := sched_burst_result t ts s hInv hchain
    refine ⟨hcount, id, hjob, hpend, fun t' ht' => ?_⟩
    rw [fire_due_late _ id _ t' hpend ht']
    exact ⟨by rw [hcount], rfl⟩

theorem schedule_refresh_debounce_witness :
    RefreshInv initRefresh
    ∧ List.Chain' (fun a b => b < a + 300)
        ([0, 100, 200, 300, 400, 500, 600, 700, 800, 900] : List Nat)
    ∧ (900 : Nat) + 300 ≤ 1200
    ∧ (sched_burst initRefresh [0, 100, 200, 300, 400, 500, 600, 700, 800, 900]).refreshCount = 0
    ∧ (fire_due (sched_burst initRefresh
        [0, 100, 200, 300, 400, 500, 600, 700, 800, 900]) 1200).refreshCount = 1
    ∧ (fire_due (sched_burst initRefresh
        [0, 100, 200, 300, 400, 500, 600, 700, 800, 900]) 1200).pending = [] := by
  have hch : List.Chain' (fun a b => b < a + 300)
      ([0, 100, 200, 300, 400, 500, 600, 700, 800, 900] : List Nat) := by
    simp [List.chain'_cons]
  have h := (schedule_refresh_debounce.2.2) initRefresh 0
    [100, 200, 300, 400, 500, 600, 700, 800, 900] (Or.inl ⟨rfl, rfl⟩) hch
  obtain ⟨hcount, id, hjob, hpend, hfire⟩ := h
  have hf := hfire 1200 (by decide)
  exact ⟨Or.inl ⟨rfl, rfl⟩, hch, by decide, hcount, hf.1, hf.2⟩

/-! ### Filesystem watcher dispatch (`AutoTagHandler`) -/

inductive FsEvKind where
  | created
  | modified
  | moved
  | deleted
deriving DecidableEq, Repr

/-- A watchdog filesystem event: its kind, whether it concerns a directory,
and the basename of its source path. -/
structure FsEvent where
  kind : FsEvKind
  is_directory : Bool
  src_name : String
deriving DecidableEq, Repr

/-- The immediate reaction of `AutoTagHandler` to an event. -/
inductive HandlerAction where
  | ignore
  | scheduleRefresh (delay : Nat)
  | newFileFlow (name : String)
deriving DecidableEq, Repr

/-- The dispatch of `on_created` / `on_modified` / `on_moved` / `on_deleted`.
`processing` is the handler's in-flight set (paths identified here by the
event's name).  `newFileFlow` stands for marking the path in-flight and
deferring `handle_file` by 800 ms. -/
def handleEvent (processing : List String) (e : FsEvent) : HandlerAction :=
  match e.kind with
  | .created =>
      if e.is_directory then .ignore
      else if is_skip_file e.src_name || processing.contains e.src_name then .ignore
      else .newFileFlow e.src_name
  | .modified =>
      if e.is_directory then .ignore
      else if is_skip_file e.src_name then .ignore
      else .scheduleRefresh 300
  | .moved =>
      if e.is_directory then .ignore
      else .scheduleRefresh 300
  | .deleted =>
      if e.is_directory then .ignore
      else .scheduleRefresh 300

/-- C6 counterexample: a non-directory *modification* event whose basename
satisfies the skip predicate (here a hidden-file name) is ignored by
`on_modified`, so the refresh request does depend on the affected file's
name. -/
theorem on_modified_filters_skip_names :
    handleEvent [] ⟨.modified, false, ".hidden"⟩ = .ignore
    ∧ ¬(∀ e : FsEvent, e.is_directory = false →
        (e.kind = .modified ∨ e.kind = .moved ∨ e.kind = .deleted) →
        handleEvent [] e = .scheduleRefresh 300) := by
  refine ⟨by decide, fun h => ?_⟩
  have hc := h ⟨.modified, false, ".hidden"⟩ rfl (Or.inl rfl)
  exact absurd hc (by decide)

/-- C6 (amended): every non-directory move or deletion event requests a
debounced 300 ms refresh, independently of the file's name; a non-directory
modification event requests it unless the name satisfies the skip predicate,
in which case the event is ignored. -/
theorem watcher_refresh_requests (processing : List String) (e : FsEvent)
    (hd : e.is_directory = false) :
    ((e.kind = .moved ∨ e.kind = .deleted) → handleEvent processing e = .scheduleRefresh 300)
    ∧ (e.kind = .modified →
        handleEvent processing e
          = if is_skip_file e.src_name then .ignore else .scheduleRefresh 300)
    ∧ ((e.kind = .moved ∨ e.kind = .deleted) → ∀ n,
        handleEvent processing { e with src_name := n } = handleEvent processing e) := by
  obtain ⟨k, dir, name⟩ := e
  simp only at hd
  subst hd
  refine ⟨fun hk => ?_, fun hk => ?_, fun hk n => ?_⟩
  · rcases hk with hk | hk <;> simp only at hk <;> subst hk <;> rfl
  · simp only at hk
    subst hk
    by_cases hs : is_skip_file name = true <;> simp [handleEvent, hs]
  · rcases hk with hk | hk <;> simp only at hk <;> subst hk <;> rfl

theorem watcher_refresh_requests_witness :
    ((⟨.moved, false, "a.txt"⟩ : FsEvent).is_directory = false)
    ∧ handleEvent [] ⟨.moved, false, "a.txt"⟩ = .scheduleRefresh 300
    ∧ handleEvent [] ⟨.deleted, false, ".hidden"⟩ = .scheduleRefresh 300
    ∧ handleEvent [] ⟨.modified, false, "a.txt"⟩
        = if is_skip_file "a.txt" then .ignore else .scheduleRefresh 300 := by
  have h₁ := watcher_refresh_requests [] ⟨.moved, false, "a.txt"⟩ rfl
  have h₂ := watcher_refresh_requests [] ⟨.deleted, false, ".hidden"⟩ rfl
  have h₃ := watcher_refresh_requests [] ⟨.modified, false, "a.txt"⟩ rfl
  exact ⟨rfl, h₁.1 (Or.inl rfl), h₂.1 (Or.inr rfl), h₃.2.1 rfl⟩

/-! ### Prompt generation (`generate_prompt`) -/

/-- Substring test: some contiguous slice of `hay` equals `needle`. -/
def strContains (hay needle : String) : Bool :=
  hay.data.tails.any (fun t => needle.data.isPrefixOf t)

theorem strContains_iff (hay needle : String) :
    strContains hay needle = true ↔ needle.data <:+: hay.data := by
  rw [strContains, List.any_eq_true, List.infix_iff_prefix_suffix]
  constructor
  · rintro ⟨t, ht, hp⟩
    exact ⟨t, List.isPrefixOf_iff_prefix.mp hp, (List.mem_tails _ _).mp ht⟩
  · rintro ⟨t, hp, ht⟩
    exact ⟨t, (List.mem_tails _ _).mpr ht, List.isPrefixOf_iff_prefix.mpr hp⟩

theorem strContains_refl (s : String) : strContains s s = true :=
  (strContains_iff s s).mpr List.infix_rfl

theorem strContains_append_left (s post needle : String)
    (h : strContains s needle = true) : strContains (s ++ post) needle = true := by
  rw [strContains_iff] at h ⊢
  rw [String.data_append]
  exact h.trans ⟨[], post.data, by simp⟩

theorem strContains_append_right (pre s needle : String)
    (h : strContains s needle = true) : strContains (pre ++ s) needle = true := by
  rw [strContains_iff] at h ⊢
  rw [String.data_append]
  exact h.trans ⟨pre.data, [], by simp⟩

/-- `"\n".join(f"- {x}" for x in xs)`. -/
def joinBullets : List String → String
  | [] => ""
  | [x] => "- " ++ x
  | x :: y :: xs => "- " ++ x ++ "\n" ++ joinBullets (y :: xs)

/-- The bulleted block `"\n".join(f"- {x}" for x in (xs or ["(無)"]))`:
Python's `or` substitutes the placeholder list when `xs` is empty. -/
def bullets (xs : List String) : String :=
  joinBullets (match xs with | [] => ["(無)"] | x :: l => x :: l)

/-- The fixed four-item checklist requested at the end of the prompt. -/
def checklist : String := "1) 不符合之處\n2) 風險\n3) 具體修改建議\n4) 需人工確認事項"

/-- The prompt f-string of `generate_prompt`, segment by segment. -/
def promptText (std tpl : List String) (tgt : String) : String :=
  "請以【標準】與【範本】作為依據，逐條審查【待審】文件：" ++ tgt ++ "\n\n【標準】\n"
    ++ bullets std ++ "\n\n【範本】\n" ++ bullets tpl ++ "\n\n請輸出：\n" ++ checklist ++ "\n"

/-- The observable outcome of `generate_prompt`: either a warning dialog and no
prompt, or the prompt text placed into the prompt display. -/
inductive PromptOutcome where
  | warned (msg : String)
  | generated (text : String)
deriving DecidableEq, Repr

/-- `generate_prompt`: partition the tagged catalog into the 【標準】 and
【範本】 lists, read the selected 【待審】 target; if the target is the
sentinel `(無)`, surface a warning (`messagebox.showwarning`) and produce no
prompt; otherwise produce the prompt text. -/
def generate_prompt (tagged : List String) (tgt : String) : PromptOutcome :=
  let std := tagged.filter (fun f => strStartsWith f "【標準】")
  let tpl := tagged.filter (fun f => strStartsWith f "【範本】")
  if tgt = "(無)" then .warned "沒有待審檔案"
  else .generated (promptText std tpl tgt)

theorem bullets_of_ne_nil {xs : List String} (h : xs ≠ []) : bullets xs = joinBullets xs := by
  cases xs with
  | nil => exact absurd rfl h
  | cons a l => rfl

theorem joinBullets_contains (x : String) (xs : List String) (hx : x ∈ xs) :
    strContains (joinBullets xs) ("- " ++ x) = true := by
  induction xs with
  | nil => simp at hx
  | cons y ys ih =>
    cases ys with
    | nil =>
      have hxy : x = y := by simpa using hx
      subst hxy
      exact strContains_refl _
    | cons z zs =>
      rcases List.mem_cons.mp hx with hxy | hx'
      · subst hxy
        exact strContains_append_left _ _ _ (strContains_append_left _ _ _ (strContains_refl _))
      · exact strContains_append_right _ _ _ (ih hx')

/-- C7 counterexample: the placeholder emitted for an empty standards or
templates list is the Chinese `(無)`, not the English literal `(none)`: the
prompt built for empty lists and target `Report.docx` does not contain the
string `(none)`. -/
theorem prompt_placeholder_is_not_none :
    strContains (promptText [] [] "Report.docx") "(none)" = false
    ∧ strContains (promptText [] [] "Report.docx") "- (無)" = true := ⟨by decide, by decide⟩

/-- C7 (amended): for any standards list, templates list, and target other
than the sentinel `(無)`, `generate_prompt` produces the prompt text, which
contains the target name, each standard and each template name as a bulleted
item, the bulleted placeholder `(無)` in place of an empty list, and the fixed
four-item checklist (deviations, risks, concrete suggestions, items needing
human confirmation); for the sentinel target a warning is surfaced and no
prompt is produced. -/
theorem generate_prompt_correct (tagged std tpl : List String) (tgt : String)
    (htgt : tgt ≠ "(無)") :
    generate_prompt tagged tgt
      = .generated (promptText (tagged.filter (fun f => strStartsWith f "【標準】"))
          (tagged.filter (fun f => strStartsWith f "【範本】")) tgt)
    ∧ strContains (promptText std tpl tgt) tgt = true
    ∧ (∀ x ∈ std, strContains (promptText std tpl tgt) ("- " ++ x) = true)
    ∧ (∀ x ∈ tpl, strContains (promptText std tpl tgt) ("- " ++ x) = true)
    ∧ (std = [] → strContains (promptText std tpl tgt) "- (無)" = true)
    ∧ (tpl = [] → strContains (promptText std tpl tgt) "- (無)" = true)
    ∧ strContains (promptText std tpl tgt) checklist = true
    ∧ (∀ tagged' : List String, generate_prompt tagged' "(無)" = .warned "沒有待審檔案") := by
  have hbul : ∀ (ys : List String) (x : String), x ∈ ys →
      strContains (bullets ys) ("- " ++ x) = true := by
    intro ys x hx
    rw [bullets_of_ne_nil (List.ne_nil_of_mem hx)]
    exact joinBullets_contains x ys hx
  have hbulnil : strContains (bullets []) "- (無)" = true := by decide
  refine ⟨by simp [generate_prompt, htgt], ?_, ?_, ?_, ?_, ?_, ?_, ?_⟩
  · apply strContains_append_left
    apply strContains_append_left
    apply strContains_append_left
    apply strContains_append_left
    apply strContains_append_left
    apply strContains_append_left
    apply strContains_append_left
    exact strContains_append_right _ _ _ (strContains_refl _)
  · intro x hx
    apply strContains_append_left
    apply strContains_append_left
    apply strContains_append_left
    apply strContains_append_left
    apply strContains_append_left
    exact strContains_append_right _ _ _ (hbul std x hx)
  · intro x hx
    apply strContains_append_left
    apply strContains_append_left
    apply strContains_append_left
    exact strContains_append_right _ _ _ (hbul tpl x hx)
  · intro hstd
    subst hstd
    apply strContains_append_left
    apply strContains_append_left
    apply strContains_append_left
    apply strContains_append_left
    apply strContains_append_left
    exact strContains_append_right _ _ _ hbulnil
  · intro htpl
    subst htpl
    apply strContains_append_left
    apply strContains_append_left
    apply strContains_append_left
    exact strContains_append_right _ _ _ hbulnil
  · apply strContains_append_left
    exact strContains_append_right _ _ _ (strContains_refl _)
  · intro tagged'
    rfl

theorem generate_prompt_correct_witness :
    (("Report.docx" : String) ≠ "(無)")
    ∧ generate_prompt ["【標準】S1", "【範本】T1"] "Report.docx"
        = .generated (promptText ["【標準】S1"] ["【範本】T1"] "Report.docx")
    ∧ strContains (promptText ["S1"] ["T1"] "Report.docx") "Report.docx" = true
    ∧ strContains (promptText ["S1"] ["T1"] "Report.docx") ("- " ++ "S1") = true
    ∧ strContains (promptText ["S1"] ["T1"] "Report.docx") ("- " ++ "T1") = true
    ∧ strContains (promptText ["S1"] ["T1"] "Report.docx") checklist = true
    ∧ generate_prompt [] "(無)" = .warned "沒有待審檔案" := by
  have h₀ := generate_prompt_correct ["【標準】S1", "【範本】T1"]
    ["S1"] ["T1"] "Report.docx" (by decide)
  have h₁ : generate_prompt ["【標準】S1", "【範本】T1"] "Report.docx"
      = .generated (promptText ["【標準】S1"] ["【範本】T1"] "Report.docx") := by
    have := h₀.1
    simpa using this
  exact ⟨by decide, h₁, h₀.2.1, h₀.2.2.1 "S1" (by simp), h₀.2.2.2.1 "T1" (by simp),
    h₀.2.2.2.2.2.2.1, h₀.2.2.2.2.2.2.2 []⟩

end LMReview
